import Mathlib

/-!
Verification development for the MultiThreaded-Server learning repository.

The repository is a set of single-file C++ demonstrations of lock-based
concurrent data structures.  Every claim checked here concerns the
sequential (single-thread) functional behaviour of those structures, so the
embedding models each structure's state explicitly and each member function
as a pure state transformer; a C++ exception is an `Except.error` result.
-/

/-- Exception kinds thrown in the repository: the dedicated `empty_stack`
exception of `threadsafe_stack` (chapter-3.cpp) and the `std::logic_error`
thrown by `hierarchical_mutex` on a hierarchy violation. The two are distinct
constructors, mirroring the distinct C++ exception classes. -/
inductive CppError where
  | empty_stack : CppError
  | logic_error : String → CppError
deriving DecidableEq, Repr

/-! ## `threadsafe_stack` (chapter-3.cpp, lines 199-256)

The protected member `std::stack<T> data` is modelled as a `List T` whose
head is the stack's top.  The mutex serialises member calls; sequentially it
has no observable effect, so each member is a function of the data alone. -/

namespace threadsafe_stack

/-- `push`: `data.push(value)` places `value` on top of the stack. -/
def push {T : Type} (s : List T) (v : T) : List T :=
  v :: s

/-- The `pop` overload returning `std::shared_ptr<T>`: if the stack is empty
it throws `empty_stack` before any mutation; otherwise it copies the top
element out (`data.top()`) and then removes it (`data.pop()`).  The result
pairs the thrown-or-returned value with the stack contents afterwards. -/
def pop_shared {T : Type} (s : List T) : Except CppError T × List T :=
  match s with
  | [] => (Except.error CppError.empty_stack, s)
  | x :: xs => (Except.ok x, xs)

/-- The `pop` overload writing through `T& popped_val`: identical control
flow, assigning `data.top()` to the reference before `data.pop()`. -/
def pop_ref {T : Type} (s : List T) : Except CppError T × List T :=
  match s with
  | [] => (Except.error CppError.empty_stack, s)
  | x :: xs => (Except.ok x, xs)

/-- `empty`: reports whether the protected stack holds no element. -/
def empty {T : Type} (s : List T) : Bool :=
  s.isEmpty

end threadsafe_stack

/-! ## `hierarchical_mutex` (unnamed source, lines 163-280)

State of one `hierarchical_mutex` object: its immutable rank
`hierarchy_value`, the saved `previous_hierarchy_value`, and whether the
`internal_mutex` is currently held.  The `thread_local` counter
`this_thread_hierarchy_value` is passed and returned explicitly. -/

structure hierarchical_mutex where
  hierarchy_value : Nat
  previous_hierarchy_value : Nat
  locked : Bool
deriving DecidableEq, Repr

/-- `ULONG_MAX`, the initial value of `this_thread_hierarchy_value`. -/
def ULONG_MAX : Nat := 2 ^ 64 - 1

/-- `check_for_hierarchy_violation`: throws `std::logic_error("mutex
hierarchy violated")` when the calling thread's current value is not
strictly above the mutex's rank. -/
def check_for_hierarchy_violation (this_thread : Nat) (m : hierarchical_mutex) :
    Except CppError Unit :=
  if this_thread ≤ m.hierarchy_value then
    Except.error (CppError.logic_error "mutex hierarchy violated")
  else
    Except.ok ()

/-- `hierarchical_mutex::lock`: check the hierarchy, lock the internal
mutex, then `update_hierarchy_value` (save the thread's current value into
`previous_hierarchy_value` and set the thread's value to this rank).
Returns the new thread-local value together with the updated mutex. -/
def hm_lock (this_thread : Nat) (m : hierarchical_mutex) :
    Except CppError (Nat × hierarchical_mutex) :=
  match check_for_hierarchy_violation this_thread m with
  | Except.error e => Except.error e
  | Except.ok _ =>
      Except.ok (m.hierarchy_value,
        { m with previous_hierarchy_value := this_thread, locked := true })

/-- `hierarchical_mutex::unlock`: restore the thread-local value from
`previous_hierarchy_value` and unlock the internal mutex. -/
def hm_unlock (m : hierarchical_mutex) : Nat × hierarchical_mutex :=
  (m.previous_hierarchy_value, { m with locked := false })

/-- Single-thread program state for the hierarchy demo: the thread-local
counter plus the three fixed-rank mutex singletons. -/
structure ThreadState where
  this_thread_hierarchy_value : Nat
  high_level_mutex : hierarchical_mutex
  low_level_mutex : hierarchical_mutex
  other_mutex : hierarchical_mutex
deriving DecidableEq, Repr

/-- Initial state: `this_thread_hierarchy_value(ULONG_MAX)` and the three
mutexes `high_level_mutex(10000)`, `low_level_mutex(5000)`,
`other_mutex(100)`, each with `previous_hierarchy_value(0)` and unlocked. -/
def initState : ThreadState :=
  { this_thread_hierarchy_value := ULONG_MAX
    high_level_mutex := { hierarchy_value := 10000, previous_hierarchy_value := 0, locked := false }
    low_level_mutex := { hierarchy_value := 5000, previous_hierarchy_value := 0, locked := false }
    other_mutex := { hierarchy_value := 100, previous_hierarchy_value := 0, locked := false } }

/-- `low_level_func`: guard `low_level_mutex`, call `do_low_level_stuff`
(declared only; it touches no mutex state), release on scope exit. -/
def low_level_func (s : ThreadState) : Except CppError ThreadState :=
  match hm_lock s.this_thread_hierarchy_value s.low_level_mutex with
  | Except.error e => Except.error e
  | Except.ok (tlv, m) =>
      let s1 : ThreadState :=
        { s with this_thread_hierarchy_value := tlv, low_level_mutex := m }
      let r := hm_unlock s1.low_level_mutex
      Except.ok { s1 with this_thread_hierarchy_value := r.1, low_level_mutex := r.2 }

/-- `high_level_func`: guard `high_level_mutex`, evaluate
`low_level_func()` (whose own guard is released before it returns), call
`high_level_stuff` (declared only), release on scope exit.  An exception
from the inner call propagates out. -/
def high_level_func (s : ThreadState) : Except CppError ThreadState :=
  match hm_lock s.this_thread_hierarchy_value s.high_level_mutex with
  | Except.error e => Except.error e
  | Except.ok (tlv, m) =>
      let s1 : ThreadState :=
        { s with this_thread_hierarchy_value := tlv, high_level_mutex := m }
      match low_level_func s1 with
      | Except.error e => Except.error e
      | Except.ok s2 =>
          let r := hm_unlock s2.high_level_mutex
          Except.ok { s2 with this_thread_hierarchy_value := r.1, high_level_mutex := r.2 }

/-- `thread_a`: simply calls `high_level_func`, which is legal. -/
def thread_a (s : ThreadState) : Except CppError ThreadState :=
  high_level_func s

/-- `other_stuff`: calls `high_level_func` and then `do_other_stuff`
(declared only). -/
def other_stuff (s : ThreadState) : Except CppError ThreadState :=
  high_level_func s

/-- `thread_b`: guards the rank-100 `other_mutex`, then calls
`other_stuff`, whose inner acquisition of the rank-10000 mutex violates the
hierarchy; the exception propagates. -/
def thread_b (s : ThreadState) : Except CppError ThreadState :=
  match hm_lock s.this_thread_hierarchy_value s.other_mutex with
  | Except.error e => Except.error e
  | Except.ok (tlv, m) =>
      let s1 : ThreadState :=
        { s with this_thread_hierarchy_value := tlv, other_mutex := m }
      match other_stuff s1 with
      | Except.error e => Except.error e
      | Except.ok s2 =>
          let r := hm_unlock s2.other_mutex
          Except.ok { s2 with this_thread_hierarchy_value := r.1, other_mutex := r.2 }

/-! ## Build driver (src/Makefile)

The Makefile's rules, reduced to the file sets they produce and remove:
`hello`, `thread-waiting` and `run-background` each compile one source into
one executable (`-o hello`, `-o thread-wait`, `-o run-background`, all in
the working directory); `all` runs the three; `clean` runs
`rm -f build/bin`. -/

/-- Executables produced by the default `all` target. -/
def all_produced : List String := ["hello", "thread-wait", "run-background"]

/-- Paths removed by the `clean` rule (`rm -f build/bin`). -/
def clean_removed : List String := ["build/bin"]

/-! ## Hand-over-hand `threadsafe_list` and the fold driver
(chapter-6.cpp, lines 539-794)

Each data node holds a mutex, a `shared_ptr` data cell and the owning link
to the next node; a permanent sentinel `head` node with a null data cell
anchors the chain.  Sequentially the node chain after the sentinel is a
`List T` in front-to-back order, and each member function is translated
from its traversal loop. -/

namespace threadsafe_list

/-- `push_front`: build the new node, lock the sentinel, splice the node in
between the sentinel and the old first node. -/
def push_front {T : Type} (v : T) (l : List T) : List T :=
  v :: l

/-- `getHead(std::vector<int> a)`: builds a `threadsafe_list` by calling
`push_front` on each element of `a` in order, and returns the sentinel head
node; the resulting chain after the sentinel is returned here. -/
def build {T : Type} (a : List T) : List T :=
  a.foldl (fun l v => push_front v l) []

/-- `for_each(f)`: hand-over-hand traversal from the sentinel, applying `f`
to each node's data in chain order.  The result is the sequence of data
values `f` is applied to. -/
def for_each_order {T : Type} : List T → List T
  | [] => []
  | x :: xs => x :: for_each_order xs

/-- `remove_if(p)`: hand-over-hand traversal; when `p` holds for the next
node it is spliced out (the current node keeps its lock and the loop
re-examines the new next node), otherwise the traversal advances. -/
def remove_if {T : Type} (p : T → Bool) : List T → List T
  | [] => []
  | x :: xs => if p x then remove_if p xs else x :: remove_if p xs

end threadsafe_list

/-- `reducer`: the binary summation action passed to `reduce_list`. -/
def reducer (a b : Int) : Int :=
  a + b

/-- The loop of `reduce_list`: starting from the current node (the sentinel
on entry, whose data cell is null) with `sum = 0`, each step takes the next
node's value `v` and sets `sum = f(v, 0)` when the current node's data is
null, `sum = f(v, sum)` otherwise, printing `sum`; it returns the final sum
paired with the printed running totals. -/
def reduce_list_loop (f : Int → Int → Int) :
    Option Int → Int → List Int → Int × List Int
  | _, sum, [] => (sum, [])
  | curData, sum, v :: vs =>
      let s : Int :=
        match curData with
        | none => f v 0
        | some _ => f v sum
      let r := reduce_list_loop f (some v) s vs
      (r.1, s :: r.2)

/-- `reduce_list(head, f)`: runs the loop from the sentinel head node over
the chain contents. -/
def reduce_list (f : Int → Int → Int) (contents : List Int) : Int × List Int :=
  reduce_list_loop f none 0 contents

/-- The fixed input vector of `main`: `a = {7, 9, 10}`. -/
def main_inputs : List Int := [7, 9, 10]

/-- The final sum computed by `main` via `reduce_list(head, reducer)`. -/
def main_sum : Int :=
  (reduce_list reducer (threadsafe_list.build main_inputs)).1

/-- The running totals printed inside `reduce_list` during the run of
`main`. -/
def main_totals : List Int :=
  (reduce_list reducer (threadsafe_list.build main_inputs)).2

/-- The full sequence of strings `main` writes to standard output:
`"HEAD IS AVAILABLE"` (the sentinel address is never null), each running
total on its own line, each input value followed by a space, and finally
`"SUM: "` with the sum. -/
def mainOut : List String :=
  ["HEAD IS AVAILABLE\n"]
    ++ main_totals.map (fun s => toString s ++ "\n")
    ++ main_inputs.map (fun i => toString i ++ " ")
    ++ ["SUM: " ++ toString main_sum ++ "\n"]

/-! ## Helper lemmas for the hand-over-hand list -/

/-- `remove_if` with an always-true predicate drains every node. -/
theorem remove_if_true_eq_nil {T : Type} (l : List T) :
    threadsafe_list.remove_if (fun _ => true) l = [] := by
  induction l with
  | nil => rfl
  | cons x xs ih => simpa [threadsafe_list.remove_if] using ih

/-- `remove_if` keeps exactly the nodes whose data fails the predicate,
in their original relative order. -/
theorem remove_if_eq_filter {T : Type} (p : T → Bool) (l : List T) :
    threadsafe_list.remove_if p l = l.filter (fun y => ! (p y)) := by
  induction l with
  | nil => rfl
  | cons x xs ih =>
      by_cases h : p x = true <;>
        simp [threadsafe_list.remove_if, List.filter_cons, h, ih]

/-! ## Claim theorems (stack, hierarchy, Makefile, list, fold driver) -/

/-- Claim C3: on a newly constructed `threadsafe_stack`, either `pop`
overload throws the dedicated `empty_stack` exception (a kind distinct from
the generic logic error), leaves the stack empty so a second `pop` throws
the same exception, and after exactly one `push v` a `pop` returns `v` and
leaves the stack empty. -/
theorem stack_empty_pop_signaling (T : Type) (v : T) :
    threadsafe_stack.pop_shared ([] : List T) = (Except.error CppError.empty_stack, [])
    ∧ threadsafe_stack.pop_ref ([] : List T) = (Except.error CppError.empty_stack, [])
    ∧ threadsafe_stack.pop_shared (threadsafe_stack.pop_shared ([] : List T)).2
        = (Except.error CppError.empty_stack, [])
    ∧ (∀ msg, CppError.empty_stack ≠ CppError.logic_error msg)
    ∧ threadsafe_stack.pop_shared (threadsafe_stack.push [] v) = (Except.ok v, [])
    ∧ threadsafe_stack.pop_ref (threadsafe_stack.push [] v) = (Except.ok v, []) := by
  refine ⟨rfl, rfl, rfl, ?_, rfl, rfl⟩
  intro msg h
  exact CppError.noConfusion h

/-- Claim C4: from the initial state (thread-local value `ULONG_MAX`),
`thread_b` — which guards the rank-100 `other_mutex` and then calls
`high_level_func` — throws the hierarchy-violation logic error, raised at
the inner attempt to lock the rank-10000 `high_level_mutex` while the
thread-local value is 100; `thread_a` — rank 10000 first, then rank 5000
via `low_level_func` — succeeds without error. -/
theorem hierarchy_violation_detection :
    thread_b initState = Except.error (CppError.logic_error "mutex hierarchy violated")
    ∧ hm_lock 100 initState.high_level_mutex
        = Except.error (CppError.logic_error "mutex hierarchy violated")
    ∧ ∃ s, thread_a initState = Except.ok s := by
  exact ⟨rfl, rfl, ⟨_, rfl⟩⟩

/-- Claim C10: on one thread, a successful `lock()` on a
`hierarchical_mutex` followed directly by `unlock()` (no intervening
hierarchical-mutex operation) restores the thread-local hierarchy value to
exactly its value before the `lock()` call. -/
theorem hm_lock_unlock_restores (tlv : Nat) (m : hierarchical_mutex)
    (h : m.hierarchy_value < tlv) :
    ∃ m1, hm_lock tlv m = Except.ok (m.hierarchy_value, m1)
      ∧ (hm_unlock m1).1 = tlv := by
  refine ⟨{ m with previous_hierarchy_value := tlv, locked := true }, ?_, rfl⟩
  simp [hm_lock, check_for_hierarchy_violation, Nat.not_le.mpr h]

/-- Witness for C10 at the concrete rank-100 mutex and thread value 101. -/
theorem hm_lock_unlock_restores_witness :
    (⟨100, 0, false⟩ : hierarchical_mutex).hierarchy_value < 101
    ∧ ∃ m1, hm_lock 101 (⟨100, 0, false⟩ : hierarchical_mutex)
        = Except.ok ((⟨100, 0, false⟩ : hierarchical_mutex).hierarchy_value, m1)
      ∧ (hm_unlock m1).1 = 101 :=
  ⟨by decide, hm_lock_unlock_restores 101 ⟨100, 0, false⟩ (by decide)⟩

/-- Claim C8 (code evaluated at the failing scenario): every executable the
default target produces is missed by the `clean` rule, which removes only
`build/bin`. -/
theorem clean_misses_built_artifacts :
    (∀ e ∈ all_produced, e ∉ clean_removed) ∧ all_produced ≠ [] := by
  decide

/-- Claim C7: pushing 7, 9, 10 at the front in that order yields the
front-to-back traversal order 10, 9, 7; `remove_if` with an always-true
predicate empties the list so a subsequent traversal visits no data node;
and `remove_if` matching one specific value removes exactly the nodes
holding that value, preserving the relative order of the rest. -/
theorem list_insert_traverse_remove :
    threadsafe_list.for_each_order (threadsafe_list.build ([7, 9, 10] : List Int)) = [10, 9, 7]
    ∧ (∀ (l : List Int),
        threadsafe_list.for_each_order (threadsafe_list.remove_if (fun _ => true) l) = [])
    ∧ (∀ (v : Int) (l : List Int),
        threadsafe_list.remove_if (fun y => y == v) l = l.filter (fun y => ! (y == v))) := by
  refine ⟨rfl, ?_, ?_⟩
  · intro l
    rw [remove_if_true_eq_nil]
    rfl
  · intro v l
    exact remove_if_eq_filter (fun y => y == v) l

/-- Claim C1 counterexample: the running totals the executable prints are
10, 19, 26 — not the 9, 16, 26 the claim states (at the sentinel step the
sum becomes `reducer(10, 0) = 10`). -/
theorem main_totals_counterexample :
    main_totals = [10, 19, 26] ∧ main_totals ≠ [9, 16, 26] := by
  exact ⟨rfl, by decide⟩

/-- Claim C1 as amended: the executable prints `HEAD IS AVAILABLE`, the
running totals 10, 19, 26 each on its own line, then the space-separated
input values `7 9 10 `, and finally `SUM: 26` on the same output line as
the input values. -/
theorem main_output_trace :
    mainOut = ["HEAD IS AVAILABLE\n", "10\n", "19\n", "26\n", "7 ", "9 ", "10 ", "SUM: 26\n"] := by
  rfl

/-- Claim C2: building the hand-over-hand list from inputs 7, 9, 10 pushed
at the front in order and folding it with the summation reducer, seeded
with zero at the sentinel, returns 26, which is the sum `main` prints in
its final `SUM: ` write. -/
theorem reduce_list_sum_26 :
    (reduce_list reducer (threadsafe_list.build main_inputs)).1 = 26
    ∧ mainOut.getLast? = some ("SUM: " ++ toString (26 : Int) ++ "\n") := by
  exact ⟨rfl, rfl⟩

/-! ## Coarse-grained `threadsafe_queue` (chapter-6.cpp, lines 169-234)

The refined coarse-grained queue stores `std::shared_ptr<T>` cells in a
`std::queue`; sequentially the cell layer is transparent, so the protected
`data_queue` is a `List T` with the front at the head. -/

namespace cg_queue

/-- `push`: allocate the shared cell outside the lock, then lock, append
the cell, and notify one waiter. -/
def push {T : Type} (q : List T) (v : T) : List T :=
  q ++ [v]

/-- Removal overloads of the coarse-grained queue: the two blocking
`wait_and_pop` overloads and the two non-blocking `try_pop` overloads; each
kind's by-reference and by-`shared_ptr` form removes the same front cell
and yields the same value, so one constructor per kind suffices. -/
inductive PopKind where
  | wait_and_pop : PopKind
  | try_pop : PopKind
deriving DecidableEq, Repr

/-- `wait_and_pop`: waits until the queue is non-empty, then removes and
yields the front cell.  On an empty queue with no concurrent producer the
wait never returns, modelled as `none`. -/
def wait_and_pop {T : Type} : List T → Option (T × List T)
  | [] => none
  | x :: xs => some (x, xs)

/-- `try_pop`: if the queue is empty, immediately return the null
`shared_ptr` (`none`); otherwise remove and return the front cell. -/
def try_pop {T : Type} : List T → Option T × List T
  | [] => (none, [])
  | x :: xs => (some x, xs)

/-- Sequential run of a list of removals; `none` overall if any single
removal fails to produce a value (a blocked `wait_and_pop` or a `try_pop`
that returned the null pointer). -/
def removals {T : Type} : List PopKind → List T → Option (List T × List T)
  | [], q => some ([], q)
  | PopKind.wait_and_pop :: ks, q =>
      match wait_and_pop q with
      | none => none
      | some (v, q1) =>
          match removals ks q1 with
          | none => none
          | some (vs, q2) => some (v :: vs, q2)
  | PopKind.try_pop :: ks, q =>
      match try_pop q with
      | (none, _) => none
      | (some v, q1) =>
          match removals ks q1 with
          | none => none
          | some (vs, q2) => some (v :: vs, q2)

/-- Pushing a whole sequence of values, in order. -/
def push_all {T : Type} (vs : List T) : List T :=
  vs.foldl push []

end cg_queue

/-! ## Fine-grained dummy-node `threadsafe_queue` (chapter-6.cpp,
lines 412-474)

Nodes live in an allocation heap addressed by allocation order; a node's
`std::shared_ptr<T> data` is `Option T` (null = `none`) and its
`std::unique_ptr<node> next` is `Option Nat` (null = `none`).  `head` owns
the first node of the chain and `tail` is the raw pointer to the dummy
node. -/

structure fgnode (T : Type) where
  data : Option T
  next : Option Nat
deriving DecidableEq, Repr

structure fgqueue (T : Type) where
  heap : List (fgnode T)
  head : Nat
  tail : Nat
deriving DecidableEq, Repr

namespace fg_queue

/-- The constructor `threadsafe_queue(): head(new node), tail(head.get())`:
one dummy node, head and tail both referring to it. -/
def mk_empty {T : Type} : fgqueue T :=
  { heap := [{ data := none, next := none }], head := 0, tail := 0 }

/-- `get_tail`: reads `tail` under the tail mutex. -/
def get_tail {T : Type} (q : fgqueue T) : Nat :=
  q.tail

/-- `push`: allocate the shared data cell and the new dummy node before any
lock, then under the tail lock set the old dummy's `data` and `next` (both
fields are overwritten) and advance `tail` to the new dummy. -/
def push {T : Type} (q : fgqueue T) (v : T) : fgqueue T :=
  let n := q.heap.length
  { heap := (q.heap ++ [({ data := none, next := none } : fgnode T)]).set q.tail
      ({ data := some v, next := some n } : fgnode T)
    head := q.head
    tail := n }

/-- `try_pop` via `pop_head`: under the head lock, if `head` equals the
tail read by `get_tail` the queue holds no real element and the null
pointer is returned with the queue unchanged; otherwise the old head node
is detached, `head` advances to its successor, and the old head's data cell
is returned.  (Under the structural invariant the old head is in range and
its `next` is non-null, so the `getD` defaults are never consulted.) -/
def try_pop {T : Type} (q : fgqueue T) : Option T × fgqueue T :=
  if q.head = get_tail q then
    (none, q)
  else
    let old := (q.heap[q.head]?).getD { data := none, next := none }
    (old.data, { heap := q.heap, head := old.next.getD q.head, tail := q.tail })

end fg_queue

/-- One sequential operation on a queue: an insertion or a non-blocking
removal. -/
inductive QOp (T : Type) where
  | push : T → QOp T
  | try_pop : QOp T
deriving DecidableEq, Repr

/-- Run a sequence of operations on the fine-grained queue, collecting the
result of every `try_pop` in order. -/
def fg_run {T : Type} : List (QOp T) → fgqueue T → List (Option T) × fgqueue T
  | [], q => ([], q)
  | QOp.push v :: ops, q => fg_run ops (fg_queue.push q v)
  | QOp.try_pop :: ops, q =>
      let r := fg_queue.try_pop q
      let rest := fg_run ops r.2
      (r.1 :: rest.1, rest.2)

/-- Run the same sequence of operations on the coarse-grained queue,
collecting the result of every `try_pop` in order. -/
def cg_run {T : Type} : List (QOp T) → List T → List (Option T) × List T
  | [], q => ([], q)
  | QOp.push v :: ops, q => cg_run ops (cg_queue.push q v)
  | QOp.try_pop :: ops, q =>
      let r := cg_queue.try_pop q
      let rest := cg_run ops r.2
      (r.1 :: rest.1, rest.2)

/-- `chain heap i l t`: starting at node index `i`, following `next` links
reads the data values `l` and ends at the dummy node `t`, whose data cell
and `next` link are both null.  This is the structural invariant of the
fine-grained queue (chapter-6.cpp comment, lines 476-483). -/
inductive chain {T : Type} (heap : List (fgnode T)) : Nat → List T → Nat → Prop where
  | nil (t : Nat) (ht : heap[t]? = some ({ data := none, next := none } : fgnode T)) :
      chain heap t [] t
  | cons (i : Nat) (v : T) (j : Nat) (l : List T) (t : Nat)
      (hi : heap[i]? = some ({ data := some v, next := some j } : fgnode T))
      (hc : chain heap j l t) :
      chain heap i (v :: l) t

/-! ## Structural lemmas about the fine-grained queue chain -/

/-- A bound index: a successful heap read implies the index is in range. -/
theorem fg_lt_length_of_read {T : Type} {heap : List (fgnode T)} {i : Nat} {nd : fgnode T}
    (h : heap[i]? = some nd) : i < heap.length :=
  (List.getElem?_eq_some.1 h).1

/-- Every chain ends at the dummy node, whose data and next are null. -/
theorem chain_tail_node {T : Type} {heap : List (fgnode T)} {i : Nat} {l : List T} {t : Nat}
    (h : chain heap i l t) :
    heap[t]? = some ({ data := none, next := none } : fgnode T) := by
  induction h with
  | nil t ht => exact ht
  | cons i v j l t hi hc ih => exact ih

/-- An empty chain starts at the dummy node itself. -/
theorem chain_nil_eq {T : Type} {heap : List (fgnode T)} {i t : Nat}
    (h : chain heap i ([] : List T) t) : i = t := by
  cases h with
  | nil => rfl

/-- A non-empty chain starts at a real data node, which is never the dummy
node. -/
theorem chain_cons_ne {T : Type} {heap : List (fgnode T)} {i t : Nat} {v : T} {l : List T}
    (h : chain heap i (v :: l) t) : i ≠ t := by
  cases h with
  | cons _ _ j _ _ hi hc =>
      intro he
      rw [he, chain_tail_node hc] at hi
      simp at hi

/-- `push` preserves the chain, appending the new value: the old dummy node
becomes the last real node and the freshly allocated node is the new
dummy. -/
theorem chain_push {T : Type} {heap : List (fgnode T)} {i : Nat} {l : List T} {t : Nat}
    (h : chain heap i l t) (v : T) :
    chain ((heap ++ [({ data := none, next := none } : fgnode T)]).set t
        ({ data := some v, next := some heap.length } : fgnode T))
      i (l ++ [v]) heap.length := by
  induction h with
  | nil t ht =>
      have htl : t < heap.length := fg_lt_length_of_read ht
      refine chain.cons t v heap.length [] heap.length ?_ ?_
      · rw [List.getElem?_set_eq_of_lt]
        simp only [List.length_append, List.length_cons, List.length_nil]
        omega
      · refine chain.nil heap.length ?_
        rw [List.getElem?_set_ne (Nat.ne_of_lt htl)]
        exact List.getElem?_concat_length heap _
  | cons i v' j l t hi hc ih =>
      have hit : i ≠ t := by
        intro he
        rw [he, chain_tail_node hc] at hi
        simp at hi
      refine chain.cons i v' j _ heap.length ?_ ih
      rw [List.getElem?_set_ne (Ne.symm hit),
        List.getElem?_append_left (fg_lt_length_of_read hi)]
      exact hi

/-- `try_pop` on a queue whose chain is empty returns the null pointer and
leaves the queue unchanged. -/
theorem try_pop_of_chain_nil {T : Type} {q : fgqueue T}
    (h : chain q.heap q.head ([] : List T) q.tail) :
    fg_queue.try_pop q = (none, q) := by
  have he := chain_nil_eq h
  simp [fg_queue.try_pop, fg_queue.get_tail, he]

/-- `try_pop` on a queue whose chain holds `v :: l` detaches the old head,
returns its data cell `v`, and advances `head` to a node whose chain holds
`l`. -/
theorem try_pop_of_chain_cons {T : Type} {q : fgqueue T} {v : T} {l : List T}
    (h : chain q.heap q.head (v :: l) q.tail) :
    ∃ j, fg_queue.try_pop q = (some v, { heap := q.heap, head := j, tail := q.tail })
      ∧ chain q.heap j l q.tail := by
  have hne : q.head ≠ q.tail := chain_cons_ne h
  cases h with
  | cons _ _ j _ _ hi hc =>
      refine ⟨j, ?_, hc⟩
      simp [fg_queue.try_pop, fg_queue.get_tail, hne, hi]

/-- The freshly constructed fine-grained queue carries the empty chain. -/
theorem chain_mk_empty {T : Type} :
    chain (fg_queue.mk_empty (T := T)).heap (fg_queue.mk_empty (T := T)).head
      ([] : List T) (fg_queue.mk_empty (T := T)).tail :=
  chain.nil 0 rfl

/-- Simulation: starting from a fine-grained queue whose chain holds
exactly the contents of a coarse-grained queue, any operation sequence
produces the same `try_pop` observations on both queues, and the chain of
the resulting fine-grained queue again holds the resulting coarse-grained
contents. -/
theorem fg_cg_sim {T : Type} (ops : List (QOp T)) :
    ∀ (q : fgqueue T) (cl : List T), chain q.heap q.head cl q.tail →
      (fg_run ops q).1 = (cg_run ops cl).1
      ∧ chain (fg_run ops q).2.heap (fg_run ops q).2.head (cg_run ops cl).2
          (fg_run ops q).2.tail := by
  induction ops with
  | nil =>
      intro q cl h
      exact ⟨rfl, h⟩
  | cons op ops ih =>
      intro q cl h
      cases op with
      | push v =>
          have hp : chain (fg_queue.push q v).heap (fg_queue.push q v).head (cl ++ [v])
              (fg_queue.push q v).tail := by
            simpa [fg_queue.push] using chain_push h v
          simpa [fg_run, cg_run, cg_queue.push] using ih (fg_queue.push q v) (cl ++ [v]) hp
      | try_pop =>
          cases cl with
          | nil =>
              have hp := try_pop_of_chain_nil h
              have hrest := ih q [] h
              simp [fg_run, cg_run, cg_queue.try_pop, hp]
              exact hrest
          | cons v l =>
              obtain ⟨j, hpop, hch⟩ := try_pop_of_chain_cons h
              have hrest := ih { heap := q.heap, head := j, tail := q.tail } l hch
              simp [fg_run, cg_run, cg_queue.try_pop, hpop]
              exact hrest

/-! ## Helper lemmas for the coarse-grained queue -/

/-- Folding `push` over a value list from any accumulator appends it. -/
theorem cg_push_foldl {T : Type} (vs : List T) :
    ∀ acc : List T, vs.foldl cg_queue.push acc = acc ++ vs := by
  induction vs with
  | nil => intro acc; simp
  | cons v vs ih =>
      intro acc
      simp [List.foldl_cons, cg_queue.push, ih, List.append_assoc]

/-- As many removals as the queue holds elements, of either overload kind,
each succeed and drain the queue front to back. -/
theorem cg_removals_full {T : Type} (ks : List cg_queue.PopKind) :
    ∀ q : List T, ks.length = q.length →
      cg_queue.removals ks q = some (q, []) := by
  induction ks with
  | nil =>
      intro q h
      have : q = [] := List.eq_nil_of_length_eq_zero h.symm
      simp [this, cg_queue.removals]
  | cons k ks ih =>
      intro q h
      cases q with
      | nil => simp at h
      | cons x xs =>
          have h' : ks.length = xs.length := by
            simpa using h
          cases k with
          | wait_and_pop =>
              simp [cg_queue.removals, cg_queue.wait_and_pop, ih xs h']
          | try_pop =>
              simp [cg_queue.removals, cg_queue.try_pop, ih xs h']

/-! ## Claim theorems (queues) -/

/-- Claim C6: pushing any `N` values into the coarse-grained `shared_ptr`
cell queue and then performing `N` removals — each either a `wait_and_pop`
or a `try_pop` — on a single thread yields exactly the pushed values in
insertion order and leaves the queue empty. -/
theorem cg_queue_fifo {T : Type} (vs : List T) (ks : List cg_queue.PopKind)
    (h : ks.length = vs.length) :
    cg_queue.removals ks (cg_queue.push_all vs) = some (vs, []) := by
  have hq : cg_queue.push_all vs = vs := by
    simpa using cg_push_foldl vs []
  rw [hq]
  exact cg_removals_full ks vs h

/-- Witness for C6: three pushes followed by a `wait_and_pop`, a `try_pop`
and another `wait_and_pop` return 1, 2, 3 in order. -/
theorem cg_queue_fifo_witness :
    ([cg_queue.PopKind.wait_and_pop, cg_queue.PopKind.try_pop,
        cg_queue.PopKind.wait_and_pop].length = ([1, 2, 3] : List Nat).length)
    ∧ cg_queue.removals
        [cg_queue.PopKind.wait_and_pop, cg_queue.PopKind.try_pop,
          cg_queue.PopKind.wait_and_pop]
        (cg_queue.push_all ([1, 2, 3] : List Nat)) = some ([1, 2, 3], []) :=
  ⟨by decide,
    cg_queue_fifo [1, 2, 3]
      [cg_queue.PopKind.wait_and_pop, cg_queue.PopKind.try_pop,
        cg_queue.PopKind.wait_and_pop] (by decide)⟩

/-- Claim C5: after any sequence of `push` and `try_pop` operations applied
sequentially to a newly constructed fine-grained dummy-node queue, the
structural invariant holds: the tail node's `next` link is null and its
data slot empty, following `next` links from `head` reaches `tail` (reading
off the queue's real contents), and `head` equals `tail` exactly when no
real element is held. -/
theorem fg_queue_invariant {T : Type} (ops : List (QOp T)) :
    ∃ l : List T,
      chain (fg_run ops fg_queue.mk_empty).2.heap (fg_run ops fg_queue.mk_empty).2.head l
        (fg_run ops fg_queue.mk_empty).2.tail
      ∧ (fg_run ops fg_queue.mk_empty).2.heap[(fg_run ops fg_queue.mk_empty).2.tail]?
          = some ({ data := none, next := none } : fgnode T)
      ∧ ((fg_run ops fg_queue.mk_empty).2.head = (fg_run ops fg_queue.mk_empty).2.tail
          ↔ l = []) := by
  have hsim := fg_cg_sim ops fg_queue.mk_empty [] chain_mk_empty
  refine ⟨(cg_run ops ([] : List T)).2, hsim.2, chain_tail_node hsim.2, ?_, ?_⟩
  · intro he
    cases hl : (cg_run ops ([] : List T)).2 with
    | nil => rfl
    | cons v l =>
        rw [hl] at hsim
        exact absurd he (chain_cons_ne hsim.2)
  · intro hl
    rw [hl] at hsim
    exact chain_nil_eq hsim.2

/-- Claim C9: for every sequence of `push` and `try_pop` operations run
sequentially from the freshly constructed queues, the fine-grained
dummy-node queue and the coarse-grained `shared_ptr` cell queue return
exactly the same `try_pop` observations — the same values, and the null
result at the same points. -/
theorem fg_cg_same_observations {T : Type} (ops : List (QOp T)) :
    (fg_run ops fg_queue.mk_empty).1 = (cg_run ops ([] : List T)).1 :=
  (fg_cg_sim ops fg_queue.mk_empty [] chain_mk_empty).1
